import Mathlib

/-!
Verification of the nougat checkpoint resolver and checkpoint IO adapter.

Shallow embedding of `nougat/utils/checkpoint.py` (functions
`download_as_bytes_with_progress`, `download_checkpoint`, `get_checkpoint`)
and of `train.py` (`CustomCheckpointIO.load_checkpoint`).

Modelling conventions:
* A filesystem path is a list of components (`Path := List String`);
  `Path.parent` is `List.dropLast`, `p / name` is `p ++ [name]`.
* The filesystem is a pair of a list of existing directories and an
  association list from file paths to byte contents (bytes as `List Nat`).
  Writing a file prepends the new binding; lookups take the first binding,
  so a prepend overwrites.
* The network is a pure oracle `String → HttpResult` mapping a URL to the
  transport outcome.  `requests.get` raises on connection errors and
  timeouts but returns the response object for any HTTP status; the code
  never inspects `resp.status_code` nor calls `raise_for_status`, so the
  embedding of `download_as_bytes_with_progress` returns the body of an
  `ok` response whatever its status, and propagates transport errors.
* A raised exception is modelled as a `some`-valued error component of the
  result; the list of URLs for which a request was attempted is recorded.
-/

namespace Nougat

abbrev Path := List String

abbrev Bytes := List Nat

/-- Outcome of an HTTP GET at the transport level: a response with a status
code and a body, or a raised connection error / timeout. -/
inductive HttpResult where
  | ok (status : Nat) (body : Bytes)
  | connError
  | timeout
deriving DecidableEq

/-- The exceptions `requests.get` can raise. -/
inductive NetErr where
  | connError
  | timeout
deriving DecidableEq

abbrev Server := String → HttpResult

def HttpResult.isOk : HttpResult → Bool
  | .ok _ _ => true
  | _ => false

/-- Body of a received response (dummy `[]` on a transport error, which the
code never observes because the error is raised first). -/
def HttpResult.bodyOf : HttpResult → Bytes
  | .ok _ b => b
  | _ => []

/-- The filesystem: existing directories and files with their contents. -/
structure FS where
  dirs : List Path
  files : List (Path × Bytes)
deriving DecidableEq

/-- Embeds `Path(p).is_file()`: `p` is bound as a file. -/
def FS.isFile (fs : FS) (p : Path) : Bool :=
  (fs.files.find? (fun e => e.1 == p)).isSome

/-- Holds when `p` is an existing directory. -/
def FS.isDir (fs : FS) (p : Path) : Bool :=
  decide (p ∈ fs.dirs)

/-- Embeds `Path(p).exists()`. -/
def FS.pexists (fs : FS) (p : Path) : Bool :=
  fs.isDir p || fs.isFile p

/-- Content of the file at `p`, if any. -/
def FS.readFile (fs : FS) (p : Path) : Option Bytes :=
  (fs.files.find? (fun e => e.1 == p)).map Prod.snd

/-- Embeds `Path(p).write_bytes(b)`: (over)write the file at `p`. -/
def FS.writeBytes (fs : FS) (p : Path) (b : Bytes) : FS :=
  { fs with files := (p, b) :: fs.files }

/-- All prefixes of `p`, from the root `[]` up to `p` itself. -/
def pathPrefixes (p : Path) : List Path :=
  (List.range (p.length + 1)).map (fun i => p.take i)

/-- Embeds `p.mkdir(parents=True, exist_ok=True)`: create `p` and every ancestor. -/
def FS.mkdirParents (fs : FS) (p : Path) : FS :=
  { fs with dirs := pathPrefixes p ++ fs.dirs }

/-- The name under which `q` is a direct child of `p`, if it is one. -/
def childName (p q : Path) : Option String :=
  if q.take p.length = p then
    match q.drop p.length with
    | [n] => some n
    | _ => none
  else none

/-- Embeds `os.listdir(p)`: the names of the direct children of `p`
(each name once, whether it names a directory or a file). -/
def FS.children (fs : FS) (p : Path) : List String :=
  ((fs.dirs ++ fs.files.map Prod.fst).filterMap (childName p)).dedup

def BASE_URL : String := "https://github.com/facebookresearch/nougat/releases/download"

def MODEL_TAG : String := "0.1.0-small"

/-- The five artifact names of `download_checkpoint`, in source order. -/
def files5 : List String :=
  ["config.json", "pytorch_model.bin", "special_tokens_map.json",
   "tokenizer.json", "tokenizer_config.json"]

/-- The download URL built for one artifact. -/
def mkUrl (file : String) : String :=
  BASE_URL ++ "/" ++ MODEL_TAG ++ "/" ++ file

/-- Embeds `download_as_bytes_with_progress`: performs `requests.get` and drains the
body.  Transport failures propagate as exceptions; the HTTP status code is
never inspected, so any received response yields its body. -/
def download_as_bytes_with_progress (server : Server) (url : String) :
    Except NetErr Bytes :=
  match server url with
  | .ok _ body => .ok body
  | .connError => .error .connError
  | .timeout => .error .timeout

/-- Result of a fetch pass: the filesystem afterwards, the URLs for which a
request was attempted (in order), and the raised exception, if any. -/
structure FetchResult where
  fs : FS
  urls : List String
  err : Option NetErr
deriving DecidableEq

/-- The download loop of `download_checkpoint` over a list of artifact
names: for each name, GET its URL and, when the payload has more than 15
bytes, write it under that name inside `checkpoint`.  An exception aborts
the rest of the loop. -/
def fetch_files (server : Server) (fs : FS) (checkpoint : Path) :
    List String → FetchResult
  | [] => ⟨fs, [], none⟩
  | file :: rest =>
    let url := mkUrl file
    match download_as_bytes_with_progress server url with
    | .error e => ⟨fs, [url], some e⟩
    | .ok binary_file =>
      let fs' := if 15 < binary_file.length
        then fs.writeBytes (checkpoint ++ [file]) binary_file
        else fs
      let r := fetch_files server fs' checkpoint rest
      ⟨r.fs, url :: r.urls, r.err⟩

/-- Embeds `download_checkpoint`: fetch the five artifacts into `checkpoint`. -/
def download_checkpoint (server : Server) (fs : FS) (checkpoint : Path) :
    FetchResult :=
  fetch_files server fs checkpoint files5

/-- Embeds `Path(checkpoint_path or os.environ.get("NOUGAT_CHECKPOINT",
torch.hub.get_dir() + "/nougat"))`.  `checkpoint_path = none` models the
argument being absent (`None`), `some []` models the empty string, which is
falsy in Python, so `or` falls through exactly when the argument is `none`
or `some []`.  `env` is the value of `NOUGAT_CHECKPOINT` when set, `hub`
is `torch.hub.get_dir()`. -/
def resolve_path (checkpoint_path : Option Path) (env : Option Path)
    (hub : Path) : Path :=
  match checkpoint_path with
  | some p => if p.isEmpty then envOrDefault env hub else p
  | none => envOrDefault env hub
where
  envOrDefault (env : Option Path) (hub : Path) : Path :=
    match env with
    | some e => e
    | none => hub ++ ["nougat"]

/-- Lines 58–63 of `get_checkpoint`: resolve the path, then substitute the
parent directory when the resolved path is an existing regular file. -/
def targetDir (env : Option Path) (hub : Path) (fs : FS)
    (checkpoint_path : Option Path) : Path :=
  let checkpoint := resolve_path checkpoint_path env hub
  if fs.pexists checkpoint ∧ fs.isFile checkpoint then checkpoint.dropLast
  else checkpoint

/-- Result of `get_checkpoint`: the filesystem afterwards, the returned
path, the URLs requested and the raised exception, if any. -/
structure GetResult where
  fs : FS
  path : Path
  urls : List String
  err : Option NetErr
deriving DecidableEq

/-- Embeds `get_checkpoint`: resolve the target directory and, when downloading is
enabled and the directory is absent or holds fewer than 5 entries, create
it (with parents) and run `download_checkpoint` on it. -/
def get_checkpoint (server : Server) (env : Option Path) (hub : Path)
    (fs : FS) (checkpoint_path : Option Path) (download : Bool) : GetResult :=
  let checkpoint := targetDir env hub fs checkpoint_path
  if download ∧ (fs.pexists checkpoint = false ∨
      (fs.children checkpoint).length < 5) then
    let fs1 := fs.mkdirParents checkpoint
    let r := download_checkpoint server fs1 checkpoint
    ⟨r.fs, checkpoint, r.urls, r.err⟩
  else ⟨fs, checkpoint, [], none⟩

/-! ## `CustomCheckpointIO.load_checkpoint` from `train.py`

Loaded checkpoints are Python dicts; their values are either opaque objects
(tensors, counters, …) of an abstract type `T` or nested dicts.  `torch.load`
is an oracle from paths to the dict stored at that path (both `.ckpt`
checkpoints and `pytorch_model.bin` state dicts are dicts). -/

/-- A value inside a loaded checkpoint dict. -/
inductive PyObj (T : Type) where
  | leaf (t : T)
  | dict (entries : List (String × PyObj T))

abbrev PyDict (T : Type) := List (String × PyObj T)

/-- Embeds `k in d` for a Python dict. -/
def hasKey {T : Type} (d : PyDict T) (k : String) : Bool :=
  (d.find? (fun e => e.1 == k)).isSome

/-- Embeds `d[k]` for a Python dict, as an option. -/
def getKey {T : Type} (d : PyDict T) (k : String) : Option (PyObj T) :=
  (d.find? (fun e => e.1 == k)).map Prod.snd

/-- Embeds `d[k] = v`: update in place when present, else append. -/
def setKey {T : Type} (d : PyDict T) (k : String) (v : PyObj T) : PyDict T :=
  if hasKey d k then d.map (fun e => if e.1 == k then (k, v) else e)
  else d ++ [(k, v)]

/-- Embeds the comprehension that prefixes every key of `sd` with `model.`. -/
def prefixModel {T : Type} (sd : PyDict T) : PyDict T :=
  sd.map (fun e => ("model." ++ e.1, e.2))

/-- Embeds `CustomCheckpointIO.load_checkpoint`: `is_file` is `Path(path).is_file()`
and `tload` is the `torch.load` oracle. -/
def load_checkpoint {T : Type} (is_file : Path → Bool)
    (tload : Path → PyDict T) (path : Path) : PyDict T :=
  if is_file path then
    let ckpt := tload path
    if ¬ hasKey ckpt "state_dict" then
      setKey ckpt "state_dict"
        (.dict (prefixModel (tload (path.dropLast ++ ["pytorch_model.bin"]))))
    else ckpt
  else
    let checkpoint := tload (path ++ ["artifacts.ckpt"])
    setKey checkpoint "state_dict"
      (.dict (prefixModel (tload (path ++ ["pytorch_model.bin"]))))

/-! ## Basic filesystem lemmas -/

theorem readFile_writeBytes_self (fs : FS) (p : Path) (b : Bytes) :
    (fs.writeBytes p b).readFile p = some b := by
  simp [FS.readFile, FS.writeBytes, List.find?]

theorem readFile_writeBytes_ne (fs : FS) (p q : Path) (b : Bytes)
    (h : q ≠ p) : (fs.writeBytes p b).readFile q = fs.readFile q := by
  simp [FS.readFile, FS.writeBytes, List.find?]
  have : (p == q) = false := by
    simp [beq_eq_false_iff_ne]
    exact fun hpq => h hpq.symm
  simp [this]

theorem dirs_writeBytes (fs : FS) (p : Path) (b : Bytes) :
    (fs.writeBytes p b).dirs = fs.dirs := rfl

theorem childName_eq_some {p q : Path} {n : String} :
    childName p q = some n ↔ q = p ++ [n] := by
  constructor
  · intro h
    unfold childName at h
    split at h
    · rename_i htake
      split at h
      · rename_i m hdrop
        cases h
        calc q = q.take p.length ++ q.drop p.length := (List.take_append_drop _ _).symm
          _ = p ++ [n] := by rw [htake, hdrop]
      · exact absurd h (by simp)
    · exact absurd h (by simp)
  · intro h
    subst h
    unfold childName
    simp

theorem childName_append_single (p : Path) (n : String) :
    childName p (p ++ [n]) = some n :=
  childName_eq_some.mpr rfl

theorem childName_of_take (p : Path) {q : Path} (hq : q ∈ pathPrefixes p) :
    childName p q = none := by
  unfold pathPrefixes at hq
  simp at hq
  obtain ⟨i, _, rfl⟩ := hq
  cases h : childName p (p.take i) with
  | none => rfl
  | some n =>
    exfalso
    have := childName_eq_some.mp h
    have hlen := congrArg List.length this
    simp at hlen
    omega

theorem filterMap_childName_prefixes (p : Path) :
    (pathPrefixes p).filterMap (childName p) = [] := by
  rw [List.filterMap_eq_nil_iff]
  intro q hq
  exact childName_of_take p hq

theorem mem_pathPrefixes_self (p : Path) : p ∈ pathPrefixes p := by
  unfold pathPrefixes
  simp
  exact ⟨p.length, by omega, by simp⟩

theorem append_single_ne (cp : Path) {f g : String} (h : f ≠ g) :
    cp ++ [f] ≠ cp ++ [g] := by
  intro he
  exact h (by simpa using List.append_cancel_left he)

/-! ## Lemmas about the download loop -/

theorem fetch_files_cons_error (server : Server) (fs : FS) (cp : Path)
    (f : String) (rest : List String) (e : NetErr)
    (h : download_as_bytes_with_progress server (mkUrl f) = .error e) :
    fetch_files server fs cp (f :: rest) = ⟨fs, [mkUrl f], some e⟩ := by
  simp [fetch_files, h]

theorem fetch_files_cons_ok_fs (server : Server) (fs : FS) (cp : Path)
    (f : String) (rest : List String) (body : Bytes)
    (h : download_as_bytes_with_progress server (mkUrl f) = .ok body) :
    (fetch_files server fs cp (f :: rest)).fs =
      (fetch_files server
        (if 15 < body.length then fs.writeBytes (cp ++ [f]) body else fs)
        cp rest).fs := by
  simp [fetch_files, h]

theorem fetch_files_cons_ok_urls (server : Server) (fs : FS) (cp : Path)
    (f : String) (rest : List String) (body : Bytes)
    (h : download_as_bytes_with_progress server (mkUrl f) = .ok body) :
    (fetch_files server fs cp (f :: rest)).urls =
      mkUrl f :: (fetch_files server
        (if 15 < body.length then fs.writeBytes (cp ++ [f]) body else fs)
        cp rest).urls := by
  simp [fetch_files, h]

theorem fetch_files_cons_ok_err (server : Server) (fs : FS) (cp : Path)
    (f : String) (rest : List String) (body : Bytes)
    (h : download_as_bytes_with_progress server (mkUrl f) = .ok body) :
    (fetch_files server fs cp (f :: rest)).err =
      (fetch_files server
        (if 15 < body.length then fs.writeBytes (cp ++ [f]) body else fs)
        cp rest).err := by
  simp [fetch_files, h]

theorem fetch_files_dirs (server : Server) (cp : Path) :
    ∀ (L : List String) (fs : FS),
      (fetch_files server fs cp L).fs.dirs = fs.dirs := by
  intro L
  induction L with
  | nil => intro fs; rfl
  | cons f rest ih =>
    intro fs
    cases h : download_as_bytes_with_progress server (mkUrl f) with
    | error e => rw [fetch_files_cons_error server fs cp f rest e h]
    | ok body =>
      rw [fetch_files_cons_ok_fs server fs cp f rest body h, ih]
      split <;> rfl

theorem fetch_files_read_not_mem (server : Server) (cp : Path) :
    ∀ (L : List String) (fs : FS) (f : String), f ∉ L →
      (fetch_files server fs cp L).fs.readFile (cp ++ [f]) =
        fs.readFile (cp ++ [f]) := by
  intro L
  induction L with
  | nil => intro fs f _; rfl
  | cons g rest ih =>
    intro fs f hf
    have hfg : f ≠ g := fun h => hf (h ▸ List.mem_cons_self g rest)
    have hfrest : f ∉ rest := fun h => hf (List.mem_cons_of_mem g h)
    cases h : download_as_bytes_with_progress server (mkUrl g) with
    | error e => rw [fetch_files_cons_error server fs cp g rest e h]
    | ok body =>
      rw [fetch_files_cons_ok_fs server fs cp g rest body h, ih _ f hfrest]
      split
      · exact readFile_writeBytes_ne fs _ _ body (append_single_ne cp hfg)
      · rfl

theorem fetch_files_read (server : Server) (cp : Path) :
    ∀ (L : List String) (fs : FS) (f : String), f ∈ L → L.Nodup →
      (∀ g ∈ L, (server (mkUrl g)).isOk = true) →
      (fetch_files server fs cp L).fs.readFile (cp ++ [f]) =
        if 15 < (server (mkUrl f)).bodyOf.length
        then some (server (mkUrl f)).bodyOf
        else fs.readFile (cp ++ [f]) := by
  intro L
  induction L with
  | nil => intro fs f hf; exact absurd hf (List.not_mem_nil f)
  | cons g rest ih =>
    intro fs f hf hnd hok
    have hgok : (server (mkUrl g)).isOk = true := hok g (List.mem_cons_self g rest)
    obtain ⟨s, body, hsg⟩ : ∃ s b, server (mkUrl g) = .ok s b := by
      cases h : server (mkUrl g) with
      | ok s b => exact ⟨s, b, rfl⟩
      | connError => rw [h] at hgok; simp [HttpResult.isOk] at hgok
      | timeout => rw [h] at hgok; simp [HttpResult.isOk] at hgok
    have hdl : download_as_bytes_with_progress server (mkUrl g) = .ok body := by
      unfold download_as_bytes_with_progress
      rw [hsg]
    rw [fetch_files_cons_ok_fs server fs cp g rest body hdl]
    rcases List.mem_cons.mp hf with hfg | hfrest
    · subst hfg
      have hfnotrest : f ∉ rest := (List.nodup_cons.mp hnd).1
      rw [fetch_files_read_not_mem server cp rest _ f hfnotrest]
      rw [hsg]
      simp only [HttpResult.bodyOf]
      split
      · exact readFile_writeBytes_self fs _ body
      · rfl
    · have hfg : f ≠ g := by
        intro h
        subst h
        exact (List.nodup_cons.mp hnd).1 hfrest
      rw [ih _ f hfrest (List.nodup_cons.mp hnd).2
        (fun x hx => hok x (List.mem_cons_of_mem g hx))]
      split
      · rfl
      · split
        · exact readFile_writeBytes_ne fs _ _ body (append_single_ne cp hfg)
        · rfl

theorem fetch_files_ok (server : Server) (cp : Path) :
    ∀ (L : List String) (fs : FS),
      (∀ g ∈ L, (server (mkUrl g)).isOk = true) →
      (fetch_files server fs cp L).urls = L.map mkUrl ∧
        (fetch_files server fs cp L).err = none := by
  intro L
  induction L with
  | nil => intro fs _; exact ⟨rfl, rfl⟩
  | cons g rest ih =>
    intro fs hok
    have hgok : (server (mkUrl g)).isOk = true := hok g (List.mem_cons_self g rest)
    obtain ⟨s, body, hsg⟩ : ∃ s b, server (mkUrl g) = .ok s b := by
      cases h : server (mkUrl g) with
      | ok s b => exact ⟨s, b, rfl⟩
      | connError => rw [h] at hgok; simp [HttpResult.isOk] at hgok
      | timeout => rw [h] at hgok; simp [HttpResult.isOk] at hgok
    have hdl : download_as_bytes_with_progress server (mkUrl g) = .ok body := by
      unfold download_as_bytes_with_progress
      rw [hsg]
    refine ⟨?_, ?_⟩
    · rw [fetch_files_cons_ok_urls server fs cp g rest body hdl, List.map_cons,
        (ih _ (fun x hx => hok x (List.mem_cons_of_mem g hx))).1]
    · rw [fetch_files_cons_ok_err server fs cp g rest body hdl,
        (ih _ (fun x hx => hok x (List.mem_cons_of_mem g hx))).2]

theorem fetch_files_urls_ne_nil (server : Server) (cp : Path) (fs : FS)
    (f : String) (rest : List String) :
    (fetch_files server fs cp (f :: rest)).urls ≠ [] := by
  cases h : download_as_bytes_with_progress server (mkUrl f) with
  | error e =>
    rw [fetch_files_cons_error server fs cp f rest e h]
    simp
  | ok body =>
    rw [fetch_files_cons_ok_urls server fs cp f rest body h]
    simp

theorem fetch_files_files_fst (server : Server) (cp : Path) :
    ∀ (L : List String) (fs : FS),
      (∀ g ∈ L, (server (mkUrl g)).isOk = true ∧
        15 < (server (mkUrl g)).bodyOf.length) →
      (fetch_files server fs cp L).fs.files.map Prod.fst =
        L.reverse.map (fun f => cp ++ [f]) ++ fs.files.map Prod.fst := by
  intro L
  induction L with
  | nil => intro fs _; simp [fetch_files]
  | cons g rest ih =>
    intro fs hok
    obtain ⟨hgok, hglen⟩ := hok g (List.mem_cons_self g rest)
    obtain ⟨s, body, hsg⟩ : ∃ s b, server (mkUrl g) = .ok s b := by
      cases h : server (mkUrl g) with
      | ok s b => exact ⟨s, b, rfl⟩
      | connError => rw [h] at hgok; simp [HttpResult.isOk] at hgok
      | timeout => rw [h] at hgok; simp [HttpResult.isOk] at hgok
    have hdl : download_as_bytes_with_progress server (mkUrl g) = .ok body := by
      unfold download_as_bytes_with_progress
      rw [hsg]
    have hblen : 15 < body.length := by
      rw [hsg] at hglen
      exact hglen
    rw [fetch_files_cons_ok_fs server fs cp g rest body hdl, if_pos hblen,
      ih _ (fun x hx => hok x (List.mem_cons_of_mem g hx))]
    simp [FS.writeBytes]

theorem fetch_files_err_isSome (server : Server) (cp : Path) :
    ∀ (L : List String) (fs : FS),
      ((fetch_files server fs cp L).err.isSome = true ↔
        ∃ f ∈ L, (server (mkUrl f)).isOk = false) := by
  intro L
  induction L with
  | nil => intro fs; simp [fetch_files]
  | cons g rest ih =>
    intro fs
    cases hs : server (mkUrl g) with
    | ok s b =>
      have hdl : download_as_bytes_with_progress server (mkUrl g) = .ok b := by
        unfold download_as_bytes_with_progress
        rw [hs]
      rw [fetch_files_cons_ok_err server fs cp g rest b hdl, ih]
      constructor
      · rintro ⟨f, hf, hfe⟩
        exact ⟨f, List.mem_cons_of_mem g hf, hfe⟩
      · rintro ⟨f, hf, hfe⟩
        rcases List.mem_cons.mp hf with rfl | hfr
        · rw [hs] at hfe
          simp [HttpResult.isOk] at hfe
        · exact ⟨f, hfr, hfe⟩
    | connError =>
      have hdl : download_as_bytes_with_progress server (mkUrl g) =
          .error .connError := by
        unfold download_as_bytes_with_progress
        rw [hs]
      rw [fetch_files_cons_error server fs cp g rest _ hdl]
      constructor
      · intro _
        exact ⟨g, List.mem_cons_self g rest, by rw [hs]; rfl⟩
      · intro _
        rfl
    | timeout =>
      have hdl : download_as_bytes_with_progress server (mkUrl g) =
          .error .timeout := by
        unfold download_as_bytes_with_progress
        rw [hs]
      rw [fetch_files_cons_error server fs cp g rest _ hdl]
      constructor
      · intro _
        exact ⟨g, List.mem_cons_self g rest, by rw [hs]; rfl⟩
      · intro _
        rfl

theorem fetch_files_abort (server : Server) (cp : Path) :
    ∀ (L1 : List String) (f : String) (L2 : List String) (fs : FS),
      (∀ g ∈ L1, (server (mkUrl g)).isOk = true) →
      (server (mkUrl f)).isOk = false →
      (fetch_files server fs cp (L1 ++ f :: L2)).urls =
          L1.map mkUrl ++ [mkUrl f] ∧
        (fetch_files server fs cp (L1 ++ f :: L2)).err.isSome = true := by
  intro L1
  induction L1 with
  | nil =>
    intro f L2 fs _ hferr
    cases hs : server (mkUrl f) with
    | ok s b =>
      rw [hs] at hferr
      simp [HttpResult.isOk] at hferr
    | connError =>
      have hdl : download_as_bytes_with_progress server (mkUrl f) =
          .error .connError := by
        unfold download_as_bytes_with_progress
        rw [hs]
      rw [List.nil_append, fetch_files_cons_error server fs cp f L2 _ hdl]
      exact ⟨rfl, rfl⟩
    | timeout =>
      have hdl : download_as_bytes_with_progress server (mkUrl f) =
          .error .timeout := by
        unfold download_as_bytes_with_progress
        rw [hs]
      rw [List.nil_append, fetch_files_cons_error server fs cp f L2 _ hdl]
      exact ⟨rfl, rfl⟩
  | cons g L1' ih =>
    intro f L2 fs hok hferr
    have hgok := hok g (List.mem_cons_self g L1')
    obtain ⟨s, body, hsg⟩ : ∃ s b, server (mkUrl g) = .ok s b := by
      cases h : server (mkUrl g) with
      | ok s b => exact ⟨s, b, rfl⟩
      | connError => rw [h] at hgok; simp [HttpResult.isOk] at hgok
      | timeout => rw [h] at hgok; simp [HttpResult.isOk] at hgok
    have hdl : download_as_bytes_with_progress server (mkUrl g) = .ok body := by
      unfold download_as_bytes_with_progress
      rw [hsg]
    have hrec := ih f L2
      (if 15 < body.length then fs.writeBytes (cp ++ [g]) body else fs)
      (fun x hx => hok x (List.mem_cons_of_mem g hx)) hferr
    rw [List.cons_append]
    constructor
    · rw [fetch_files_cons_ok_urls server fs cp g (L1' ++ f :: L2) body hdl,
        hrec.1]
      simp
    · rw [fetch_files_cons_ok_err server fs cp g (L1' ++ f :: L2) body hdl]
      exact hrec.2

/-! ## Unfolding lemmas for `get_checkpoint` -/

theorem get_checkpoint_no_fetch (server : Server) (env : Option Path)
    (hub : Path) (fs : FS) (a : Option Path) (download : Bool)
    (h : ¬ (download = true ∧
      (fs.pexists (targetDir env hub fs a) = false ∨
        (fs.children (targetDir env hub fs a)).length < 5))) :
    get_checkpoint server env hub fs a download =
      ⟨fs, targetDir env hub fs a, [], none⟩ := by
  simp only [get_checkpoint]
  rw [if_neg h]

theorem get_checkpoint_fetch (server : Server) (env : Option Path)
    (hub : Path) (fs : FS) (a : Option Path) (download : Bool)
    (h : download = true ∧
      (fs.pexists (targetDir env hub fs a) = false ∨
        (fs.children (targetDir env hub fs a)).length < 5)) :
    get_checkpoint server env hub fs a download =
      ⟨(download_checkpoint server (fs.mkdirParents (targetDir env hub fs a))
          (targetDir env hub fs a)).fs,
        targetDir env hub fs a,
        (download_checkpoint server (fs.mkdirParents (targetDir env hub fs a))
          (targetDir env hub fs a)).urls,
        (download_checkpoint server (fs.mkdirParents (targetDir env hub fs a))
          (targetDir env hub fs a)).err⟩ := by
  simp only [get_checkpoint]
  rw [if_pos h]

/-! ## Directory listing after a successful fetch -/

theorem isFile_eq_false_iff (fs : FS) (p : Path) :
    fs.isFile p = false ↔ p ∉ fs.files.map Prod.fst := by
  unfold FS.isFile
  rw [Bool.eq_false_iff]
  constructor
  · intro h hmem
    apply h
    rw [List.find?_isSome]
    obtain ⟨e, he, hfst⟩ := List.mem_map.mp hmem
    exact ⟨e, he, by rw [hfst]; exact beq_self_eq_true p⟩
  · intro h hsome
    apply h
    rw [List.find?_isSome] at hsome
    obtain ⟨e, he, hbe⟩ := hsome
    exact List.mem_map.mpr ⟨e, he, eq_of_beq hbe⟩

theorem children_of_parts (fs' fs : FS) (cp : Path) (names : List String)
    (hd : fs'.dirs = pathPrefixes cp ++ fs.dirs)
    (hf : fs'.files.map Prod.fst =
      names.map (fun f => cp ++ [f]) ++ fs.files.map Prod.fst)
    (hempty : fs.children cp = []) :
    fs'.children cp = names.dedup := by
  unfold FS.children at *
  have h0 : (fs.dirs ++ fs.files.map Prod.fst).filterMap (childName cp) = [] :=
    (List.dedup_eq_nil _).mp hempty
  rw [List.filterMap_append] at h0
  have h0d := (List.append_eq_nil.mp h0).1
  have h0f := (List.append_eq_nil.mp h0).2
  rw [hd, hf, List.append_assoc, List.filterMap_append, List.filterMap_append,
    List.filterMap_append, filterMap_childName_prefixes, h0d, h0f,
    List.filterMap_map]
  have hnames : names.filterMap ((childName cp) ∘ (fun f => cp ++ [f])) =
      names := by
    rw [List.filterMap_eq_map_iff_forall_eq_some.mpr]
    · exact List.map_id names
    · intro f _
      exact childName_append_single cp f
  rw [hnames]
  simp

/-- With downloading enabled, some request is attempted exactly when the
target directory is absent or has fewer than 5 entries. -/
theorem get_checkpoint_urls_iff (server : Server) (env : Option Path)
    (hub : Path) (fs : FS) (a : Option Path) :
    ((get_checkpoint server env hub fs a true).urls ≠ [] ↔
      (fs.pexists (targetDir env hub fs a) = false ∨
        (fs.children (targetDir env hub fs a)).length < 5)) := by
  by_cases hc : fs.pexists (targetDir env hub fs a) = false ∨
      (fs.children (targetDir env hub fs a)).length < 5
  · rw [get_checkpoint_fetch server env hub fs a true ⟨rfl, hc⟩]
    constructor
    · intro _
      exact hc
    · intro _
      exact fetch_files_urls_ne_nil server (targetDir env hub fs a)
        (fs.mkdirParents (targetDir env hub fs a)) "config.json"
        ["pytorch_model.bin", "special_tokens_map.json", "tokenizer.json",
         "tokenizer_config.json"]
  · rw [get_checkpoint_no_fetch server env hub fs a true
      (fun hand => hc hand.2)]
    constructor
    · intro h
      exact absurd rfl h
    · intro h
      exact absurd h hc

/-! ## Claims -/

/-- Example filesystem: directory `m` exists and holds five files. -/
def fsFive : FS :=
  ⟨[["m"]],
   [(["m", "a"], []), (["m", "b"], []), (["m", "c"], []), (["m", "d"], []),
    (["m", "e"], [])]⟩

/-- Example server: every URL times out. -/
def srvTimeout : Server := fun _ => .timeout

/-- C1: with downloading enabled, a fetch-and-populate pass (at least one
attempted request) happens iff the resolved directory does not exist or has
fewer than 5 entries; otherwise the resolved path is returned as-is, the
filesystem is untouched and no request is issued. -/
theorem c1_fetch_iff_incomplete (server : Server) (env : Option Path)
    (hub : Path) (fs : FS) (a : Option Path) :
    ((get_checkpoint server env hub fs a true).urls ≠ [] ↔
      (fs.pexists (targetDir env hub fs a) = false ∨
        (fs.children (targetDir env hub fs a)).length < 5)) ∧
    (¬ (fs.pexists (targetDir env hub fs a) = false ∨
        (fs.children (targetDir env hub fs a)).length < 5) →
      get_checkpoint server env hub fs a true =
        ⟨fs, targetDir env hub fs a, [], none⟩) := by
  refine ⟨get_checkpoint_urls_iff server env hub fs a, ?_⟩
  intro hc
  exact get_checkpoint_no_fetch server env hub fs a true (fun hand => hc hand.2)

/-- C1 witness: on a directory with 5 entries no request is issued and the
state is unchanged. -/
theorem c1_fetch_iff_incomplete_witness :
    get_checkpoint srvTimeout none ["h"] fsFive (some ["m"]) true =
      ⟨fsFive, ["m"], [], none⟩ :=
  (c1_fetch_iff_incomplete srvTimeout none ["h"] fsFive (some ["m"])).2
    (by decide)

/-- C4: the target directory is the explicit (non-empty) path argument when
supplied; otherwise the environment override when set; otherwise the
framework cache directory suffixed with `nougat`. -/
theorem c4_priority_order (p e hub : Path) (env : Option Path)
    (hp : p ≠ []) :
    resolve_path (some p) env hub = p ∧
    resolve_path none (some e) hub = e ∧
    resolve_path none none hub = hub ++ ["nougat"] := by
  refine ⟨?_, rfl, rfl⟩
  show (if List.isEmpty p = true then resolve_path.envOrDefault env hub else p) = p
  rw [if_neg]
  simp [List.isEmpty_iff, hp]

/-- C4 witness at concrete paths. -/
theorem c4_priority_order_witness :
    resolve_path (some ["a"]) (some ["b"]) ["h"] = ["a"] ∧
    resolve_path none (some ["b"]) ["h"] = ["b"] ∧
    resolve_path none none ["h"] = ["h", "nougat"] :=
  c4_priority_order ["a"] ["b"] ["h"] (some ["b"]) (by decide)

/-- C9: an empty-string explicit path argument is falsy in Python's `or`,
so resolution behaves exactly as if no explicit path had been supplied. -/
theorem c9_empty_explicit_path (server : Server) (env : Option Path)
    (hub : Path) (fs : FS) (download : Bool) :
    get_checkpoint server env hub fs (some []) download =
      get_checkpoint server env hub fs none download := rfl

/-- Example server: every URL answers status 200 with a 100-byte body. -/
def srvBig : Server := fun _ => .ok 200 (List.replicate 100 7)

/-- Example server: every URL answers status 200 with a 10-byte body. -/
def srvSmall : Server := fun _ => .ok 200 (List.replicate 10 7)

/-- Example filesystem: only the directory `m` (and the root) exist. -/
def fsEmptyDir : FS := ⟨[[], ["m"]], []⟩

/-- C2: during a fetch pass with working transport, a payload of at most 15
bytes is silently dropped (the file keeps its previous state and no error
is raised), while a payload of more than 15 bytes is written verbatim under
its filename inside the target directory. -/
theorem c2_size_threshold (server : Server) (fs : FS) (cp : Path)
    (f : String) (hf : f ∈ files5)
    (hok : ∀ g ∈ files5, (server (mkUrl g)).isOk = true) :
    (download_checkpoint server fs cp).err = none ∧
    ((server (mkUrl f)).bodyOf.length ≤ 15 →
      (download_checkpoint server fs cp).fs.readFile (cp ++ [f]) =
        fs.readFile (cp ++ [f])) ∧
    (15 < (server (mkUrl f)).bodyOf.length →
      (download_checkpoint server fs cp).fs.readFile (cp ++ [f]) =
        some (server (mkUrl f)).bodyOf) := by
  have hread := fetch_files_read server cp files5 fs f hf (by decide) hok
  have hdc : download_checkpoint server fs cp = fetch_files server fs cp files5 := rfl
  refine ⟨(fetch_files_ok server cp files5 fs hok).2, ?_, ?_⟩
  · intro hle
    rw [hdc, hread, if_neg (by omega)]
  · intro hlt
    rw [hdc, hread, if_pos hlt]

/-- C2 witness: a 10-byte payload for `config.json` is dropped while the
transport reports no error. -/
theorem c2_size_threshold_witness :
    (download_checkpoint srvSmall fsEmptyDir ["m"]).err = none ∧
    (download_checkpoint srvSmall fsEmptyDir ["m"]).fs.readFile
      (["m"] ++ ["config.json"]) = fsEmptyDir.readFile (["m"] ++ ["config.json"]) :=
  ⟨(c2_size_threshold srvSmall fsEmptyDir ["m"] "config.json" (by decide)
      (by intro g _; rfl)).1,
   (c2_size_threshold srvSmall fsEmptyDir ["m"] "config.json" (by decide)
      (by intro g _; rfl)).2.1 (by decide)⟩

/-- C3: on a non-existent target directory with downloading enabled and a
working transport, the directory is created including all parents, and
exactly the five artifacts are requested, in source order, each from the
URL built from the fixed base endpoint and model tag. -/
theorem c3_fresh_download (server : Server) (env : Option Path) (hub : Path)
    (fs : FS) (a : Option Path)
    (hne : fs.pexists (targetDir env hub fs a) = false)
    (hok : ∀ g ∈ files5, (server (mkUrl g)).isOk = true) :
    (get_checkpoint server env hub fs a true).path = targetDir env hub fs a ∧
    (get_checkpoint server env hub fs a true).urls =
      [mkUrl "config.json", mkUrl "pytorch_model.bin",
       mkUrl "special_tokens_map.json", mkUrl "tokenizer.json",
       mkUrl "tokenizer_config.json"] ∧
    (∀ q ∈ pathPrefixes (targetDir env hub fs a),
      (get_checkpoint server env hub fs a true).fs.isDir q = true) := by
  rw [get_checkpoint_fetch server env hub fs a true ⟨rfl, Or.inl hne⟩]
  refine ⟨rfl, ?_, ?_⟩
  · exact (fetch_files_ok server (targetDir env hub fs a) files5
      (fs.mkdirParents (targetDir env hub fs a)) hok).1
  · intro q hq
    show (fetch_files server (fs.mkdirParents (targetDir env hub fs a))
      (targetDir env hub fs a) files5).fs.isDir q = true
    unfold FS.isDir
    rw [fetch_files_dirs server (targetDir env hub fs a) files5]
    exact decide_eq_true
      (List.mem_append_left fs.dirs hq)

/-- C3 witness: downloading into an absent directory `m`. -/
theorem c3_fresh_download_witness :
    (get_checkpoint srvBig none ["h"] ⟨[], []⟩ (some ["m"]) true).path = ["m"] ∧
    (get_checkpoint srvBig none ["h"] ⟨[], []⟩ (some ["m"]) true).urls =
      [mkUrl "config.json", mkUrl "pytorch_model.bin",
       mkUrl "special_tokens_map.json", mkUrl "tokenizer.json",
       mkUrl "tokenizer_config.json"] ∧
    (∀ q ∈ pathPrefixes ["m"],
      (get_checkpoint srvBig none ["h"] ⟨[], []⟩ (some ["m"]) true).fs.isDir q
        = true) :=
  c3_fresh_download srvBig none ["h"] ⟨[], []⟩ (some ["m"]) (by decide)
    (by intro g _; rfl)

/-- C5: when the resolved path is an existing regular file, its parent
directory is substituted as the target, and the fetch decision then depends
on the parent directory's existence and entry count, not on the file. -/
theorem c5_file_parent_substitution (server : Server) (env : Option Path)
    (hub : Path) (fs : FS) (a : Option Path)
    (hex : fs.pexists (resolve_path a env hub) = true)
    (hfile : fs.isFile (resolve_path a env hub) = true) :
    targetDir env hub fs a = (resolve_path a env hub).dropLast ∧
    ((get_checkpoint server env hub fs a true).urls ≠ [] ↔
      (fs.pexists ((resolve_path a env hub).dropLast) = false ∨
        (fs.children ((resolve_path a env hub).dropLast)).length < 5)) := by
  have htd : targetDir env hub fs a = (resolve_path a env hub).dropLast := by
    simp only [targetDir]
    rw [if_pos ⟨hex, hfile⟩]
  refine ⟨htd, ?_⟩
  have := get_checkpoint_urls_iff server env hub fs a
  rw [htd] at this
  exact this

/-- C5 witness: resolved path `m/f` is a file; the parent `m` has a single
entry, so a fetch pass triggers. -/
theorem c5_file_parent_substitution_witness :
    targetDir none ["h"] ⟨[[], ["m"]], [(["m", "f"], [1, 2])]⟩ (some ["m", "f"])
      = ["m"] ∧
    ((get_checkpoint srvTimeout none ["h"] ⟨[[], ["m"]], [(["m", "f"], [1, 2])]⟩
        (some ["m", "f"]) true).urls ≠ [] ↔
      ((⟨[[], ["m"]], [(["m", "f"], [1, 2])]⟩ : FS).pexists ["m"] = false ∨
        ((⟨[[], ["m"]], [(["m", "f"], [1, 2])]⟩ : FS).children ["m"]).length < 5)) :=
  c5_file_parent_substitution srvTimeout none ["h"]
    ⟨[[], ["m"]], [(["m", "f"], [1, 2])]⟩ (some ["m", "f"]) (by decide) (by decide)

/-- Example filesystem: directory `m` exists and holds four files. -/
def fsFour : FS :=
  ⟨[["m"]],
   [(["m", "a"], []), (["m", "b"], []), (["m", "c"], []), (["m", "d"], [])]⟩

/-- C7: a directory with exactly 4 entries triggers a full re-fetch pass:
all five artifacts are requested again and any artifact whose new payload
exceeds the threshold ends up with the newly served content. -/
theorem c7_refetch_four_entries (server : Server) (env : Option Path)
    (hub : Path) (fs : FS) (a : Option Path)
    (hex : fs.pexists (targetDir env hub fs a) = true)
    (h4 : (fs.children (targetDir env hub fs a)).length = 4)
    (hok : ∀ g ∈ files5, (server (mkUrl g)).isOk = true) :
    (get_checkpoint server env hub fs a true).urls = files5.map mkUrl ∧
    (∀ f ∈ files5, 15 < (server (mkUrl f)).bodyOf.length →
      (get_checkpoint server env hub fs a true).fs.readFile
        (targetDir env hub fs a ++ [f]) = some (server (mkUrl f)).bodyOf) := by
  rw [get_checkpoint_fetch server env hub fs a true ⟨rfl, Or.inr (by omega)⟩]
  refine ⟨(fetch_files_ok server (targetDir env hub fs a) files5
    (fs.mkdirParents (targetDir env hub fs a)) hok).1, ?_⟩
  intro f hf hlen
  show (fetch_files server (fs.mkdirParents (targetDir env hub fs a))
      (targetDir env hub fs a) files5).fs.readFile
      (targetDir env hub fs a ++ [f]) = some (server (mkUrl f)).bodyOf
  rw [fetch_files_read server (targetDir env hub fs a) files5
    (fs.mkdirParents (targetDir env hub fs a)) f hf (by decide) hok,
    if_pos hlen]

/-- C7 witness: four pre-existing entries, 100-byte payloads. -/
theorem c7_refetch_four_entries_witness :
    (get_checkpoint srvBig none ["h"] fsFour (some ["m"]) true).urls =
      files5.map mkUrl ∧
    (get_checkpoint srvBig none ["h"] fsFour (some ["m"]) true).fs.readFile
        (targetDir none ["h"] fsFour (some ["m"]) ++ ["config.json"]) =
      some (srvBig (mkUrl "config.json")).bodyOf :=
  ⟨(c7_refetch_four_entries srvBig none ["h"] fsFour (some ["m"]) (by decide)
      (by decide) (by intro g _; rfl)).1,
   (c7_refetch_four_entries srvBig none ["h"] fsFour (some ["m"]) (by decide)
      (by decide) (by intro g _; rfl)).2 "config.json" (by decide) (by decide)⟩

/-- C8: starting from an existing empty directory with all payloads above
the threshold, one call populates the directory with the five artifacts
holding the served bodies, and a second call on the resulting state issues
no request, changes nothing and returns the same path. -/
theorem c8_idempotent_after_fetch (server : Server) (env : Option Path)
    (hub : Path) (fs : FS) (a : Option Path)
    (hdir : fs.isDir (resolve_path a env hub) = true)
    (hnf : fs.isFile (resolve_path a env hub) = false)
    (hempty : fs.children (resolve_path a env hub) = [])
    (hok : ∀ f ∈ files5, (server (mkUrl f)).isOk = true ∧
      15 < (server (mkUrl f)).bodyOf.length) :
    (get_checkpoint server env hub fs a true).path = resolve_path a env hub ∧
    (∀ f ∈ files5,
      (get_checkpoint server env hub fs a true).fs.readFile
        (resolve_path a env hub ++ [f]) = some (server (mkUrl f)).bodyOf) ∧
    get_checkpoint server env hub (get_checkpoint server env hub fs a true).fs
        a true =
      ⟨(get_checkpoint server env hub fs a true).fs, resolve_path a env hub,
        [], none⟩ := by
  have hok1 : ∀ f ∈ files5, (server (mkUrl f)).isOk = true :=
    fun f hf => (hok f hf).1
  set rp := resolve_path a env hub with hrpdef
  have htd1 : targetDir env hub fs a = rp := by
    simp only [targetDir]
    rw [← hrpdef, if_neg]
    intro hand
    rw [hnf] at hand
    exact Bool.false_ne_true hand.2
  have hcond1 : fs.pexists (targetDir env hub fs a) = false ∨
      (fs.children (targetDir env hub fs a)).length < 5 := by
    rw [htd1]
    exact Or.inr (by rw [hempty]; decide)
  have hr1 := get_checkpoint_fetch server env hub fs a true ⟨rfl, hcond1⟩
  rw [htd1] at hr1
  rw [hr1]
  set F := (download_checkpoint server (fs.mkdirParents rp) rp).fs with hFdef
  have hFfetch : F = (fetch_files server (fs.mkdirParents rp) rp files5).fs :=
    hFdef
  have hFdirs : F.dirs = pathPrefixes rp ++ fs.dirs := by
    rw [hFfetch, fetch_files_dirs server rp files5 (fs.mkdirParents rp)]
    rfl
  have hFfiles : F.files.map Prod.fst =
      files5.reverse.map (fun f => rp ++ [f]) ++ fs.files.map Prod.fst := by
    rw [hFfetch]
    exact fetch_files_files_fst server rp files5 (fs.mkdirParents rp) hok
  have hFisDir : F.isDir rp = true := by
    unfold FS.isDir
    rw [hFdirs]
    exact decide_eq_true (List.mem_append_left _ (mem_pathPrefixes_self rp))
  have hFisFile : F.isFile rp = false := by
    rw [isFile_eq_false_iff]
    rw [hFfiles]
    intro hmem
    rcases List.mem_append.mp hmem with hnew | hold
    · obtain ⟨f, _, heq⟩ := List.mem_map.mp hnew
      have := congrArg List.length heq
      simp at this
    · exact (isFile_eq_false_iff fs rp).mp hnf hold
  have hFpe : F.pexists rp = true := by
    unfold FS.pexists
    rw [hFisDir]
    simp
  have htd2 : targetDir env hub F a = rp := by
    simp only [targetDir]
    rw [← hrpdef, if_neg]
    intro hand
    rw [hFisFile] at hand
    exact Bool.false_ne_true hand.2
  have hFchildren : F.children rp = files5.reverse := by
    rw [children_of_parts F fs rp files5.reverse hFdirs hFfiles hempty]
    exact List.dedup_eq_self.mpr (by decide)
  have hcond2 : ¬ (true = true ∧ (F.pexists (targetDir env hub F a) = false ∨
      (F.children (targetDir env hub F a)).length < 5)) := by
    rw [htd2]
    rintro ⟨-, hc | hc⟩
    · rw [hFpe] at hc
      exact Bool.noConfusion hc
    · rw [hFchildren] at hc
      have h5 : files5.reverse.length = 5 := by decide
      omega
  have hsecond := get_checkpoint_no_fetch server env hub F a true hcond2
  rw [htd2] at hsecond
  refine ⟨rfl, ?_, hsecond⟩
  intro f hf
  show (fetch_files server (fs.mkdirParents rp) rp files5).fs.readFile
      (rp ++ [f]) = some (server (mkUrl f)).bodyOf
  rw [fetch_files_read server rp files5 (fs.mkdirParents rp) f hf (by decide)
    hok1, if_pos (hok f hf).2]

/-- C8 witness: empty directory `m`, 100-byte payloads, second call is a
no-op returning the same path. -/
theorem c8_idempotent_after_fetch_witness :
    (get_checkpoint srvBig none ["h"] fsEmptyDir (some ["m"]) true).path =
      ["m"] ∧
    (get_checkpoint srvBig none ["h"] fsEmptyDir (some ["m"]) true).fs.readFile
        (["m"] ++ ["config.json"]) = some (srvBig (mkUrl "config.json")).bodyOf ∧
    get_checkpoint srvBig none ["h"]
        (get_checkpoint srvBig none ["h"] fsEmptyDir (some ["m"]) true).fs
        (some ["m"]) true =
      ⟨(get_checkpoint srvBig none ["h"] fsEmptyDir (some ["m"]) true).fs,
        ["m"], [], none⟩ :=
  ⟨(c8_idempotent_after_fetch srvBig none ["h"] fsEmptyDir (some ["m"])
      (by decide) (by decide) (by decide) (by intro f _; exact ⟨rfl, by show (15:Nat) < (List.replicate 100 7).length; decide⟩)).1,
   (c8_idempotent_after_fetch srvBig none ["h"] fsEmptyDir (some ["m"])
      (by decide) (by decide) (by decide)
      (by intro f _; exact ⟨rfl, by show (15:Nat) < (List.replicate 100 7).length; decide⟩)).2.1 "config.json" (by decide),
   (c8_idempotent_after_fetch srvBig none ["h"] fsEmptyDir (some ["m"])
      (by decide) (by decide) (by decide)
      (by intro f _; exact ⟨rfl, by show (15:Nat) < (List.replicate 100 7).length; decide⟩)).2.2⟩

/-- Example server: every URL answers HTTP 404 with a 20-byte error page. -/
def srv404 : Server := fun _ => .ok 404 (List.replicate 20 9)

/-- C6 counterexample: with every response carrying the non-success HTTP
status 404 (and a 20-byte error page), the fetch pass raises no error, all
five artifacts are requested, and the error page is even written to disk —
so a non-success status does not propagate to the caller as an error. -/
theorem c6_counterexample_status_ignored :
    srv404 (mkUrl "config.json") = .ok 404 (List.replicate 20 9) ∧
    (download_checkpoint srv404 fsEmptyDir ["m"]).err = none ∧
    (download_checkpoint srv404 fsEmptyDir ["m"]).urls = files5.map mkUrl ∧
    (download_checkpoint srv404 fsEmptyDir ["m"]).fs.readFile
      (["m"] ++ ["config.json"]) = some (List.replicate 20 9) := by
  refine ⟨rfl, ?_, ?_, ?_⟩ <;> decide

/-- C6 amended: connection errors and timeouts during a fetch pass are not
caught locally; they propagate to the caller and abort the rest of the pass
(after the first failing artifact no further request is attempted).  A
non-success HTTP status, by contrast, raises nothing: the pass errors iff
some artifact's transport fails. -/
theorem c6_transport_errors_propagate (server : Server) (fs : FS)
    (cp : Path) :
    ((download_checkpoint server fs cp).err.isSome = true ↔
      ∃ f ∈ files5, (server (mkUrl f)).isOk = false) ∧
    (∀ L1 f L2, files5 = L1 ++ f :: L2 →
      (∀ g ∈ L1, (server (mkUrl g)).isOk = true) →
      (server (mkUrl f)).isOk = false →
      (download_checkpoint server fs cp).urls = L1.map mkUrl ++ [mkUrl f]) := by
  constructor
  · exact fetch_files_err_isSome server cp files5 fs
  · intro L1 f L2 hsplit hok hferr
    have hdc : download_checkpoint server fs cp =
        fetch_files server fs cp files5 := rfl
    rw [hdc, hsplit]
    exact (fetch_files_abort server cp L1 f L2 fs hok hferr).1

/-- C6 amended witness: with a timeout on every URL, the pass raises and
only the first artifact was requested. -/
theorem c6_transport_errors_propagate_witness :
    ((download_checkpoint srvTimeout fsEmptyDir ["m"]).err.isSome = true ↔
      ∃ f ∈ files5, (srvTimeout (mkUrl f)).isOk = false) ∧
    (download_checkpoint srvTimeout fsEmptyDir ["m"]).urls =
      [mkUrl "config.json"] :=
  ⟨(c6_transport_errors_propagate srvTimeout fsEmptyDir ["m"]).1,
   (c6_transport_errors_propagate srvTimeout fsEmptyDir ["m"]).2 []
     "config.json"
     ["pytorch_model.bin", "special_tokens_map.json", "tokenizer.json",
      "tokenizer_config.json"] rfl (by intro g hg; cases hg) rfl⟩

/-! ## Lemmas about Python dict update -/

theorem hasKey_eq_isSome_getKey {T : Type} (d : PyDict T) (k : String) :
    hasKey d k = (getKey d k).isSome := by
  unfold hasKey getKey
  cases d.find? (fun e => e.1 == k) <;> rfl

theorem getKey_map_update {T : Type} (k : String) (v : PyObj T) :
    ∀ d : PyDict T, hasKey d k = true →
      getKey (d.map (fun e => if e.1 == k then (k, v) else e)) k = some v := by
  intro d
  induction d with
  | nil =>
    intro hk
    simp [hasKey] at hk
  | cons e d' ih =>
    intro hk
    by_cases he : (e.1 == k) = true
    · unfold getKey
      rw [List.map_cons, if_pos he,
        List.find?_cons_of_pos (p := fun x => x.1 == k) (a := (k, v)) _
          (by simp)]
      rfl
    · have hk' : hasKey d' k = true := by
        unfold hasKey at hk ⊢
        rwa [List.find?_cons_of_neg (p := fun x => x.1 == k) (a := e) _ he]
          at hk
      have := ih hk'
      unfold getKey at this ⊢
      rw [List.map_cons, if_neg he,
        List.find?_cons_of_neg (p := fun x => x.1 == k) (a := e) _ he]
      exact this

theorem getKey_setKey_self {T : Type} (d : PyDict T) (k : String)
    (v : PyObj T) : getKey (setKey d k v) k = some v := by
  unfold setKey
  split
  · rename_i hk
    exact getKey_map_update k v d hk
  · rename_i hk
    have hfind : d.find? (fun e => e.1 == k) = none := by
      cases hfind : d.find? (fun e => e.1 == k) with
      | none => rfl
      | some e =>
        exfalso
        apply hk
        unfold hasKey
        rw [hfind]
        rfl
    unfold getKey
    rw [List.find?_append, hfind]
    simp [List.find?]

/-- C10: the mapping returned by `load_checkpoint` always contains a
`state_dict` key; when the loaded file's mapping lacks one, the state dict
is synthesized from `pytorch_model.bin` next to the file with every key
prefixed by `model.`, and for a directory path it is synthesized from
`pytorch_model.bin` inside the directory. -/
theorem c10_load_checkpoint_state_dict {T : Type} (is_file : Path → Bool)
    (tload : Path → PyDict T) (path : Path) :
    hasKey (load_checkpoint is_file tload path) "state_dict" = true ∧
    (is_file path = true → hasKey (tload path) "state_dict" = false →
      getKey (load_checkpoint is_file tload path) "state_dict" =
        some (.dict (prefixModel
          (tload (path.dropLast ++ ["pytorch_model.bin"]))))) ∧
    (is_file path = false →
      getKey (load_checkpoint is_file tload path) "state_dict" =
        some (.dict (prefixModel (tload (path ++ ["pytorch_model.bin"]))))) := by
  by_cases hfile : is_file path = true
  · by_cases hsd : hasKey (tload path) "state_dict" = true
    · have hres : load_checkpoint is_file tload path = tload path := by
        simp only [load_checkpoint]
        rw [if_pos hfile, if_neg (by simp [hsd])]
      refine ⟨by rw [hres]; exact hsd, ?_, ?_⟩
      · intro _ hsd'
        rw [hsd] at hsd'
        exact Bool.noConfusion hsd'
      · intro hfile'
        rw [hfile] at hfile'
        exact Bool.noConfusion hfile'
    · have hres : load_checkpoint is_file tload path =
          setKey (tload path) "state_dict"
            (.dict (prefixModel
              (tload (path.dropLast ++ ["pytorch_model.bin"])))) := by
        simp only [load_checkpoint]
        rw [if_pos hfile, if_pos (by simp [Bool.eq_false_iff.mpr hsd])]
      refine ⟨?_, ?_, ?_⟩
      · rw [hres, hasKey_eq_isSome_getKey, getKey_setKey_self]
        rfl
      · intro _ _
        rw [hres, getKey_setKey_self]
      · intro hfile'
        rw [hfile] at hfile'
        exact Bool.noConfusion hfile'
  · have hfile' : is_file path = false := Bool.eq_false_iff.mpr hfile
    have hres : load_checkpoint is_file tload path =
        setKey (tload (path ++ ["artifacts.ckpt"])) "state_dict"
          (.dict (prefixModel (tload (path ++ ["pytorch_model.bin"])))) := by
      simp only [load_checkpoint]
      rw [if_neg (by simp [hfile'])]
    refine ⟨?_, ?_, ?_⟩
    · rw [hres, hasKey_eq_isSome_getKey, getKey_setKey_self]
      rfl
    · intro hf _
      rw [hf] at hfile'
      exact Bool.noConfusion hfile'
    · intro _
      rw [hres, getKey_setKey_self]

/-- C10 witness: a directory path with empty dicts on disk. -/
theorem c10_load_checkpoint_state_dict_witness :
    hasKey (load_checkpoint (T := Nat) (fun _ => false) (fun _ => []) ["d"])
      "state_dict" = true ∧
    getKey (load_checkpoint (T := Nat) (fun _ => false) (fun _ => []) ["d"])
      "state_dict" = some (.dict (prefixModel ([] : PyDict Nat))) :=
  ⟨(c10_load_checkpoint_state_dict (fun _ => false) (fun _ => []) ["d"]).1,
   (c10_load_checkpoint_state_dict (fun _ => false) (fun _ => []) ["d"]).2.2
     rfl⟩

end Nougat
